import Mathlib

/-!
Verification of the `devcli` command scripts `b64dec.py` and `urlext.py`
against their specification.

The two commands are thin wrappers around the Python standard library
(`base64.b64decode`, `base64.urlsafe_b64decode`, `urllib.parse.urlparse`,
`urllib.parse.parse_qs`).  The handlers themselves are embedded from
`src/devcli/scripts/commands/b64dec.py` and
`src/devcli/scripts/commands/urlext.py`; the standard-library functions they
call are embedded from CPython's `Modules/binascii.c` (`a2b_base64`,
non-strict mode), `Lib/base64.py` and `Lib/urllib/parse.py`.

Bytes are modelled as `Nat` (always < 256 where it matters), byte strings and
text as `List Nat` / `List Char`, and a raised Python exception as the
`none` / `some error` part of the result.
-/

/-- Standard Base64 digit table, from `table_a2b_base64` in CPython's
`binascii.c`: `A`-`Z` map to 0-25, `a`-`z` to 26-51, `0`-`9` to 52-61,
`+` to 62, `/` to 63; every other byte (including the pad `=`) is
not a digit. -/
def b64table (c : Nat) : Option Nat :=
  if 65 ≤ c ∧ c ≤ 90 then some (c - 65)
  else if 97 ≤ c ∧ c ≤ 122 then some (c - 97 + 26)
  else if 48 ≤ c ∧ c ≤ 57 then some (c - 48 + 52)
  else if c = 43 then some 62
  else if c = 47 then some 63
  else none

/-- Inverse digit table, from `table_b2a_base64` in CPython's `binascii.c`. -/
def b64chr (v : Nat) : Nat :=
  if v < 26 then 65 + v
  else if v < 52 then 97 + (v - 26)
  else if v < 62 then 48 + (v - 52)
  else if v = 62 then 43
  else 47

/-- Decoding loop of CPython's `binascii.a2b_base64` in non-strict mode
(the mode used by `base64.b64decode` with `validate=False`):
state is the position in the current quad (`quad_pos`), the leftover bits
of the current quad (`leftchar`), the count of pad characters seen since
the last digit (`pads`), and the bytes produced so far (accumulated in
reverse).  A pad byte `=` at `quad_pos ≥ 2` that brings `quad_pos + pads`
to 4 ends decoding successfully; bytes that are not Base64 digits are
skipped; a digit resets `pads` and advances the quad.  At the end of the
input, a partially filled quad is an error (`Incorrect padding`),
modelled as `none`. -/
def a2b_loop : List Nat → Nat → Nat → Nat → List Nat → Option (List Nat)
  | [], 0, _, _, acc => some acc.reverse
  | [], _ + 1, _, _, _ => none
  | c :: rest, quad, left, pads, acc =>
    if c = 61 then
      if 2 ≤ quad ∧ 4 ≤ quad + pads + 1 then some acc.reverse
      else a2b_loop rest quad left (pads + 1) acc
    else
      match b64table c with
      | none => a2b_loop rest quad left pads acc
      | some v =>
        match quad with
        | 0 => a2b_loop rest 1 v 0 acc
        | 1 => a2b_loop rest 2 (v % 16) 0 ((left * 4 + v / 16) :: acc)
        | 2 => a2b_loop rest 3 (v % 4) 0 ((left * 16 + v / 4) :: acc)
        | _ => a2b_loop rest 0 0 0 ((left * 64 + v) :: acc)

/-- CPython `base64.b64decode(s)` with default arguments
(`altchars=None`, `validate=False`): just `binascii.a2b_base64(s)`. -/
def b64decode (s : List Nat) : Option (List Nat) :=
  a2b_loop s 0 0 0 []

/-- Byte translation used by `base64.urlsafe_b64decode`: `-` to `+`
and `_` to `/`, all other bytes unchanged. -/
def urlsafeTranslate (c : Nat) : Nat :=
  if c = 45 then 43 else if c = 95 then 47 else c

/-- CPython `base64.urlsafe_b64decode(s)`: translate `-`/`_` to `+`/`/`,
then standard decode. -/
def urlsafe_b64decode (s : List Nat) : Option (List Nat) :=
  b64decode (s.map urlsafeTranslate)

/-- CPython `base64.b64encode` (via `binascii.b2a_base64`): each group of
three bytes becomes four digits; a final group of one or two bytes is
padded with `=` (byte 61). -/
def b64encode : List Nat → List Nat
  | [] => []
  | [a] => [b64chr (a / 4), b64chr (a % 4 * 16), 61, 61]
  | [a, b] => [b64chr (a / 4), b64chr (a % 4 * 16 + b / 16), b64chr (b % 16 * 4), 61]
  | a :: b :: c :: rest =>
    b64chr (a / 4) :: b64chr (a % 4 * 16 + b / 16) :: b64chr (b % 16 * 4 + c / 64)
      :: b64chr (c % 64) :: b64encode rest

/-- Byte translation used by `base64.urlsafe_b64encode`: `+` to `-`
and `/` to `_`. -/
def urlsafeEncTranslate (c : Nat) : Nat :=
  if c = 43 then 45 else if c = 47 then 95 else c

/-- CPython `base64.urlsafe_b64encode(s)`: standard encode, then translate
`+`/`/` to `-`/`_`. -/
def urlsafe_b64encode (b : List Nat) : List Nat :=
  (b64encode b).map urlsafeEncTranslate

/-- UTF-8 encoding of one character, as performed by Python's
`str.encode('UTF-8')` (Lean `Char`s, like Python `str` code points fed to
the UTF-8 codec, exclude surrogates). -/
def utf8EncodeChar (c : Char) : List Nat :=
  let v := c.toNat
  if v < 128 then [v]
  else if v < 2048 then [192 + v / 64, 128 + v % 64]
  else if v < 65536 then [224 + v / 4096, 128 + v / 64 % 64, 128 + v % 64]
  else [240 + v / 262144, 128 + v / 4096 % 64, 128 + v / 64 % 64, 128 + v % 64]

/-- Python `value.encode('UTF-8')` on a whole string. -/
def utf8Encode (s : String) : List Nat :=
  (s.data.map utf8EncodeChar).flatten

/-- Handler of the `b64dec` command
(`src/devcli/scripts/commands/b64dec.py`, `handle`):
`original_bytes = args.value.encode('UTF-8')`, then
`console.write(base64.urlsafe_b64decode(original_bytes))` when
`--url-safe` was given and `console.write(base64.b64decode(original_bytes))`
otherwise.  `some bs` is the byte string written to standard output;
`none` is a `binascii.Error` raised before anything is written. -/
def b64dec_handle (value : String) (url_safe : Bool) : Option (List Nat) :=
  let original_bytes := utf8Encode value
  if url_safe then urlsafe_b64decode original_bytes
  else b64decode original_bytes

/-! ## `urllib.parse`: URL splitting -/

/-- Split a character list at the first occurrence of `c`
(Python `s.split(c, 1)` when it returns two parts, `none` when `c` is
absent). -/
def splitFirst : List Char → Char → Option (List Char × List Char)
  | [], _ => none
  | x :: xs, c =>
    if x = c then some ([], xs)
    else
      match splitFirst xs c with
      | none => none
      | some (a, b) => some (x :: a, b)

/-- Character class stripped from the front of the URL by
`urllib.parse.urlsplit` (`_WHATWG_C0_CONTROL_OR_SPACE`): C0 control
characters and the space, i.e. code points ≤ 0x20. -/
def isC0ControlOrSpace (c : Char) : Bool :=
  c.toNat ≤ 32

/-- Bytes removed everywhere in the URL by `urlsplit`
(`_UNSAFE_URL_BYTES_TO_REMOVE`): tab, carriage return, newline. -/
def isUnsafeUrlByte (c : Char) : Bool :=
  c = '\t' ∨ c = '\r' ∨ c = '\n'

/-- Characters allowed in a URL scheme (`urllib.parse.scheme_chars`):
ASCII letters, digits, `+`, `-`, `.`. -/
def isSchemeChar (c : Char) : Bool :=
  c.isAlpha ∨ ('0' ≤ c ∧ c ≤ '9') ∨ c = '+' ∨ c = '-' ∨ c = '.'

/-- Scheme-splitting step of `urlsplit`: when the URL has a colon at a
positive position, its first character is an ASCII letter and everything
before the colon is a scheme character, the scheme (with the colon) is cut
off; otherwise the URL is left unchanged. -/
def schemeSplit (url : List Char) : List Char :=
  match splitFirst url ':' with
  | none => url
  | some (before, after) =>
    match before with
    | [] => url
    | c0 :: _ =>
      if c0.isAlpha ∧ before.all isSchemeChar then after else url

/-- Delimiters ending the network location (`_splitnetloc` looks for the
first of `/`, `?`, `#`). -/
def isNetlocDelim (c : Char) : Bool :=
  c = '/' ∨ c = '?' ∨ c = '#'

/-- Netloc step of `urlsplit`: when the (scheme-stripped) URL starts with
`//`, the network location runs to the first `/`, `?` or `#`; a `[`
without `]` (or vice versa) in it raises `ValueError('Invalid IPv6 URL')`.
Returns the part of the URL after the netloc, or the error message.
(The additional bracketed-host and NFKC netloc validation of newer
CPython versions, which only concerns URLs with exotic netlocs, is not
modelled.) -/
def netlocSplit (url : List Char) : Except (List Char) (List Char) :=
  match url with
  | '/' :: '/' :: rest =>
    let netloc := rest.takeWhile (fun c => ¬ isNetlocDelim c)
    let rest1 := rest.dropWhile (fun c => ¬ isNetlocDelim c)
    if (netloc.contains '[' ∧ ¬ netloc.contains ']')
        ∨ (netloc.contains ']' ∧ ¬ netloc.contains '[') then
      Except.error "Invalid IPv6 URL".data
    else Except.ok rest1
  | _ => Except.ok url

/-- Query component produced by `urllib.parse.urlparse(url).query`
(computed by `urlsplit` with `allow_fragments=True`): left-strip C0
controls and spaces, delete tab/CR/LF, strip a scheme prefix and a `//`
netloc, drop everything from the first `#`, and take everything after the
first `?` (the empty string when there is no `?`).  `Except.error`
carries the message of a raised `ValueError`. -/
def urlparse_query (url : List Char) : Except (List Char) (List Char) :=
  let u0 := url.dropWhile isC0ControlOrSpace
  let u1 := u0.filter (fun c => ¬ isUnsafeUrlByte c)
  let u2 := schemeSplit u1
  match netlocSplit u2 with
  | Except.error e => Except.error e
  | Except.ok u3 =>
    let u4 := match splitFirst u3 '#' with
      | some (a, _) => a
      | none => u3
    match splitFirst u4 '?' with
    | some (_, q) => Except.ok q
    | none => Except.ok []

/-! ## `urllib.parse`: percent-decoding and query parsing -/

/-- Value of a hexadecimal digit (both cases), as accepted by the
`_hextobyte` table of `urllib.parse.unquote_to_bytes`. -/
def hexVal (c : Char) : Option Nat :=
  if '0' ≤ c ∧ c ≤ '9' then some (c.toNat - 48)
  else if 'a' ≤ c ∧ c ≤ 'f' then some (c.toNat - 97 + 10)
  else if 'A' ≤ c ∧ c ≤ 'F' then some (c.toNat - 65 + 10)
  else none

/-- The replacement character U+FFFD used by `errors='replace'`. -/
def replChar : Char := Char.ofNat 65533

/-- Continuation byte of a UTF-8 sequence: `0x80`-`0xBF`. -/
def isUtf8Cont (b : Nat) : Bool := 128 ≤ b ∧ b ≤ 191

/-- Admissible first continuation byte after the lead byte `lead`
(the restricted ranges exclude overlong forms, surrogates and code points
above U+10FFFF, exactly as CPython's UTF-8 decoder does). -/
def utf8FirstContOk (lead b1 : Nat) : Bool :=
  if lead = 224 then 160 ≤ b1 ∧ b1 ≤ 191
  else if lead = 237 then 128 ≤ b1 ∧ b1 ≤ 159
  else if lead = 240 then 144 ≤ b1 ∧ b1 ≤ 191
  else if lead = 244 then 128 ≤ b1 ∧ b1 ≤ 143
  else isUtf8Cont b1

/-- One step of UTF-8 decoding with `errors='replace'`, as CPython's
decoder performs it: given the current byte and the remaining bytes,
produce the decoded character (U+FFFD for a stray or invalid byte or a
truncated sequence) and how many of the remaining bytes the step consumed
(a maximal valid prefix of a multi-byte sequence is consumed by its
replacement character). -/
def utf8DecodeStep (b : Nat) (rest : List Nat) : Char × Nat :=
  if b < 128 then (Char.ofNat b, 0)
  else if 194 ≤ b ∧ b ≤ 223 then
    match rest with
    | b1 :: _ =>
      if isUtf8Cont b1 then (Char.ofNat ((b - 192) * 64 + (b1 - 128)), 1)
      else (replChar, 0)
    | [] => (replChar, 0)
  else if 224 ≤ b ∧ b ≤ 239 then
    match rest with
    | b1 :: b2 :: _ =>
      if utf8FirstContOk b b1 then
        if isUtf8Cont b2 then
          (Char.ofNat ((b - 224) * 4096 + (b1 - 128) * 64 + (b2 - 128)), 2)
        else (replChar, 1)
      else (replChar, 0)
    | [b1] => if utf8FirstContOk b b1 then (replChar, 1) else (replChar, 0)
    | [] => (replChar, 0)
  else if 240 ≤ b ∧ b ≤ 244 then
    match rest with
    | b1 :: b2 :: b3 :: _ =>
      if utf8FirstContOk b b1 then
        if isUtf8Cont b2 then
          if isUtf8Cont b3 then
            (Char.ofNat
                ((b - 240) * 262144 + (b1 - 128) * 4096 + (b2 - 128) * 64 + (b3 - 128)),
              3)
          else (replChar, 2)
        else (replChar, 1)
      else (replChar, 0)
    | [b1, b2] =>
      if utf8FirstContOk b b1 then
        if isUtf8Cont b2 then (replChar, 2) else (replChar, 1)
      else (replChar, 0)
    | [b1] => if utf8FirstContOk b b1 then (replChar, 1) else (replChar, 0)
    | [] => (replChar, 0)
  else (replChar, 0)

/-- CPython `bytes.decode('utf-8', errors='replace')`: repeat
`utf8DecodeStep` over the byte string. -/
def utf8DecodeReplace : List Nat → List Char
  | [] => []
  | b :: rest =>
    (utf8DecodeStep b rest).1
      :: utf8DecodeReplace (rest.drop (utf8DecodeStep b rest).2)
termination_by l => l.length
decreasing_by simp only [List.length_drop, List.length_cons]; omega

/-- Core of CPython `urllib.parse.unquote(string)` with the default
`encoding='utf-8'`, `errors='replace'`: a `%` followed by two hex digits
contributes a byte, consecutive such bytes are UTF-8-decoded together
with replacement; a `%` not followed by two hex digits stays literal;
all other characters pass through (in the one- and two-character cases a
leading `%` cannot start an escape either way, so it passes through like
any other character).  `buf` holds the bytes of the current escape run in
reverse. -/
def unquoteCore : List Char → List Nat → List Char
  | [], buf => utf8DecodeReplace buf.reverse
  | [c], buf => utf8DecodeReplace buf.reverse ++ [c]
  | [c, c1], buf => utf8DecodeReplace buf.reverse ++ c :: unquoteCore [c1] []
  | c :: c1 :: c2 :: rest2, buf =>
    if c = '%' then
      match hexVal c1, hexVal c2 with
      | some h1, some h2 => unquoteCore rest2 ((h1 * 16 + h2) :: buf)
      | _, _ => utf8DecodeReplace buf.reverse ++ '%' :: unquoteCore (c1 :: c2 :: rest2) []
    else utf8DecodeReplace buf.reverse ++ c :: unquoteCore (c1 :: c2 :: rest2) []

/-- CPython `urllib.parse.unquote(string)` with default arguments: a
string without `%` is returned unchanged, otherwise the escapes are
decoded. -/
def unquote (s : List Char) : List Char :=
  if s.contains '%' then unquoteCore s [] else s

/-- Python `s.replace('+', ' ')` as applied by `parse_qsl` to names and
values. -/
def plusToSpace (s : List Char) : List Char :=
  s.map (fun c => if c = '+' then ' ' else c)

/-- Helper of `pySplit`: `cur` is the current part, in reverse. -/
def pySplitAux (sep : Char) : List Char → List Char → List (List Char)
  | [], cur => [cur.reverse]
  | c :: rest, cur =>
    if c = sep then cur.reverse :: pySplitAux sep rest []
    else pySplitAux sep rest (c :: cur)

/-- Python `s.split(sep)` for a one-character separator: all parts in
order, empty parts kept. -/
def pySplit (s : List Char) (sep : Char) : List (List Char) :=
  pySplitAux sep s []

/-- Treatment of one `&`-separated field by CPython
`urllib.parse.parse_qsl` with default arguments (`keep_blank_values=False`,
`strict_parsing=False`): skip an empty field; skip a field without `=`;
skip a field whose raw value is empty; otherwise replace `+` by a space
and percent-decode both name and value. -/
def qslField (name_value : List Char) : Option (List Char × List Char) :=
  if name_value = [] then none
  else
    match splitFirst name_value '=' with
    | none => none
    | some (n, v) =>
      if v = [] then none
      else some (unquote (plusToSpace n), unquote (plusToSpace v))

/-- CPython `urllib.parse.parse_qsl(qs)` with default arguments: split the
query at `&` and process each field with `qslField`. -/
def parse_qsl (qs : List Char) : List (List Char × List Char) :=
  (if qs = [] then [] else pySplit qs '&').filterMap qslField

/-- One step of the dictionary construction in CPython
`urllib.parse.parse_qs`: append the value to the list of an existing name,
or add the name with a one-element list (dictionaries preserve insertion
order, so the dictionary is an association list). -/
def qsInsert (d : List (List Char × List (List Char))) (n v : List Char) :
    List (List Char × List (List Char)) :=
  if d.any (fun p => p.1 = n) then
    d.map (fun p => if p.1 = n then (p.1, p.2 ++ [v]) else p)
  else d ++ [(n, [v])]

/-- CPython `urllib.parse.parse_qs(qs)` with default arguments. -/
def parse_qs (qs : List Char) : List (List Char × List (List Char)) :=
  (parse_qsl qs).foldl (fun d p => qsInsert d p.1 p.2) []

/-! ## The `urlext` handler -/

/-- Modelled from the spec: the `console` output helper is an assumed
pre-existing utility providing color codes and write semantics
(`console.RED`). -/
def console_RED : List Char := "\x1b[31m".data

/-- Modelled from the spec: the `console` helper's green color code
(`console.GREEN`). -/
def console_GREEN : List Char := "\x1b[32m".data

/-- Modelled from the spec: the `console` helper's color-reset code
(`console.END`). -/
def console_END : List Char := "\x1b[0m".data

/-- The header line `-qs:` written by `urlext.handle` as soon as the
`-qs` flag is present, before the URL is parsed
(`console.write('-qs:', color=None)`). -/
def qsHeaderLine : List Char := "-qs:".data

/-- The line written for one query parameter by `urlext.handle`:
`f'  {console.RED}{param}{console.END}: {console.GREEN}{value[0]}{console.END}'`
with `value[0]` already extracted. -/
def paramLine (param v : List Char) : List Char :=
  "  ".data ++ console_RED ++ param ++ console_END ++ ": ".data
    ++ console_GREEN ++ v ++ console_END

/-- Output loop of `urlext.handle`:
`for param, value in query_params.items(): console.write(f'  ...{value[0]}...')`.
Returns the lines written, and the message of the `IndexError` raised by
`value[0]` on an empty list (lines written before the raise are kept). -/
def writeParams :
    List (List Char × List (List Char)) → List (List Char) × Option (List Char)
  | [] => ([], none)
  | (param, value) :: rest =>
    match value with
    | [] => ([], some "list index out of range".data)
    | v :: _ =>
      let r := writeParams rest
      (paramLine param v :: r.1, r.2)

/-- Continuation of `urlext.handle` after the header line, on the result
of `urlparse(args.url)`: a raised `ValueError` propagates (the header was
already written); otherwise the query is parsed with `parse_qs` and the
parameters are printed. -/
def urlext_qs_output (r : Except (List Char) (List Char)) :
    List (List Char) × Option (List Char) :=
  match r with
  | Except.error e => ([qsHeaderLine], some e)
  | Except.ok q =>
    let w := writeParams (parse_qs q)
    (qsHeaderLine :: w.1, w.2)

/-- Handler of the `urlext` command
(`src/devcli/scripts/commands/urlext.py`, `handle`): with `-qs` it writes
the `-qs:` header, parses the URL, parses the query string and writes one
line per parameter with the first value; without `-qs` it does nothing.
The first component is the list of lines written to standard output, the
second the message of an exception propagating out of `handle`
(`none` when the handler returns normally). -/
def urlext_handle (url : String) (qs : Bool) :
    List (List Char) × Option (List Char) :=
  if qs then urlext_qs_output (urlparse_query url.data)
  else ([], none)


/-! ## Sanity checks of the embedding on concrete inputs -/

example : b64dec_handle "aGVsbG8=" false = some [104, 101, 108, 108, 111] := by decide

example : b64dec_handle "aGVsbG8" false = none := by decide

example : urlparse_query "http://x/p?a=1&b=2&b=3".data = Except.ok "a=1&b=2&b=3".data := rfl

example : parse_qs "a=1&b=2&b=3".data =
    [("a".data, ["1".data]), ("b".data, ["2".data, "3".data])] := by decide

example : parse_qs "a=&b=2".data = [("b".data, ["2".data])] := by decide

example : urlext_handle "http://x/p" true = ([qsHeaderLine], none) := by decide

/-! ## Lemmas about the Base64 decoder and encoder -/

/-- The digit tables are inverse on the 64 digit values. -/
theorem b64table_b64chr : ∀ v, v < 64 → b64table (b64chr v) = some v := by decide

/-- No digit is the pad byte `=`. -/
theorem b64chr_ne_pad : ∀ v, v < 64 → b64chr v ≠ 61 := by decide

/-- One decoder step on a digit at quad position 0. -/
theorem a2b_step0 {c v : Nat} (hc : b64table c = some v) (hne : c ≠ 61)
    (rest : List Nat) (left pads : Nat) (acc : List Nat) :
    a2b_loop (c :: rest) 0 left pads acc = a2b_loop rest 1 v 0 acc := by
  simp [a2b_loop, hne, hc]

/-- One decoder step on a digit at quad position 1: the first byte of the
quad is produced. -/
theorem a2b_step1 {c v : Nat} (hc : b64table c = some v) (hne : c ≠ 61)
    (rest : List Nat) (left pads : Nat) (acc : List Nat) :
    a2b_loop (c :: rest) 1 left pads acc =
      a2b_loop rest 2 (v % 16) 0 ((left * 4 + v / 16) :: acc) := by
  simp [a2b_loop, hne, hc]

/-- One decoder step on a digit at quad position 2: the second byte of the
quad is produced. -/
theorem a2b_step2 {c v : Nat} (hc : b64table c = some v) (hne : c ≠ 61)
    (rest : List Nat) (left pads : Nat) (acc : List Nat) :
    a2b_loop (c :: rest) 2 left pads acc =
      a2b_loop rest 3 (v % 4) 0 ((left * 16 + v / 4) :: acc) := by
  simp [a2b_loop, hne, hc]

/-- One decoder step on a digit at quad position 3: the third byte of the
quad is produced and the quad is complete. -/
theorem a2b_step3 {c v : Nat} (hc : b64table c = some v) (hne : c ≠ 61)
    (rest : List Nat) (left pads : Nat) (acc : List Nat) :
    a2b_loop (c :: rest) 3 left pads acc =
      a2b_loop rest 0 0 0 ((left * 64 + v) :: acc) := by
  simp [a2b_loop, hne, hc]

/-- A pad byte that completes the quad ends decoding successfully. -/
theorem a2b_pad_done {quad pads : Nat} (h : 2 ≤ quad ∧ 4 ≤ quad + pads + 1)
    (rest : List Nat) (left : Nat) (acc : List Nat) :
    a2b_loop (61 :: rest) quad left pads acc = some acc.reverse := by
  simp [a2b_loop, h]

/-- A pad byte that does not yet complete the quad is counted and skipped. -/
theorem a2b_pad_cont {quad pads : Nat} (h : ¬(2 ≤ quad ∧ 4 ≤ quad + pads + 1))
    (rest : List Nat) (left : Nat) (acc : List Nat) :
    a2b_loop (61 :: rest) quad left pads acc =
      a2b_loop rest quad left (pads + 1) acc := by
  simp only [a2b_loop, if_neg h]
  simp

/-- Running the decoder loop over the encoder's output appends exactly the
encoded bytes to the accumulator. -/
theorem a2b_loop_encode :
    ∀ (B acc : List Nat), (∀ x ∈ B, x < 256) →
      a2b_loop (b64encode B) 0 0 0 acc = some (acc.reverse ++ B)
  | [], acc, _ => by simp [b64encode, a2b_loop]
  | [a], acc, h => by
    have ha : a < 256 := h a (by simp)
    have h1 : a / 4 < 64 := by omega
    have h2 : a % 4 * 16 < 64 := by omega
    rw [b64encode,
      a2b_step0 (b64table_b64chr _ h1) (b64chr_ne_pad _ h1),
      a2b_step1 (b64table_b64chr _ h2) (b64chr_ne_pad _ h2),
      a2b_pad_cont (by omega), a2b_pad_done (by omega)]
    have hw : a / 4 * 4 + a % 4 * 16 / 16 = a := by omega
    rw [hw, List.reverse_cons]
  | [a, b], acc, h => by
    have ha : a < 256 := h a (by simp)
    have hb : b < 256 := h b (by simp)
    have h1 : a / 4 < 64 := by omega
    have h2 : a % 4 * 16 + b / 16 < 64 := by omega
    have h3 : b % 16 * 4 < 64 := by omega
    rw [b64encode,
      a2b_step0 (b64table_b64chr _ h1) (b64chr_ne_pad _ h1),
      a2b_step1 (b64table_b64chr _ h2) (b64chr_ne_pad _ h2),
      a2b_step2 (b64table_b64chr _ h3) (b64chr_ne_pad _ h3),
      a2b_pad_done (by omega)]
    have hw1 : a / 4 * 4 + (a % 4 * 16 + b / 16) / 16 = a := by omega
    have hw2 : (a % 4 * 16 + b / 16) % 16 * 16 + b % 16 * 4 / 4 = b := by omega
    rw [hw1, hw2]
    simp
  | a :: b :: c :: rest, acc, h => by
    have ha : a < 256 := h a (by simp)
    have hb : b < 256 := h b (by simp)
    have hc : c < 256 := h c (by simp)
    have h1 : a / 4 < 64 := by omega
    have h2 : a % 4 * 16 + b / 16 < 64 := by omega
    have h3 : b % 16 * 4 + c / 64 < 64 := by omega
    have h4 : c % 64 < 64 := by omega
    have hrest : ∀ x ∈ rest, x < 256 := fun x hx => h x (by simp [hx])
    rw [b64encode,
      a2b_step0 (b64table_b64chr _ h1) (b64chr_ne_pad _ h1),
      a2b_step1 (b64table_b64chr _ h2) (b64chr_ne_pad _ h2),
      a2b_step2 (b64table_b64chr _ h3) (b64chr_ne_pad _ h3),
      a2b_step3 (b64table_b64chr _ h4) (b64chr_ne_pad _ h4)]
    have hw1 : a / 4 * 4 + (a % 4 * 16 + b / 16) / 16 = a := by omega
    have hw2 : (a % 4 * 16 + b / 16) % 16 * 16 + (b % 16 * 4 + c / 64) / 4 = b := by omega
    have hw3 : (b % 16 * 4 + c / 64) % 4 * 64 + c % 64 = c := by omega
    rw [hw1, hw2, hw3, a2b_loop_encode rest (c :: b :: a :: acc) hrest]
    simp

/-- Decoding the standard encoding of a byte string gives it back. -/
theorem b64decode_b64encode (B : List Nat) (h : ∀ x ∈ B, x < 256) :
    b64decode (b64encode B) = some B := by
  have := a2b_loop_encode B [] h
  simpa [b64decode] using this

/-- Every byte of an encoder output is either the pad or a digit. -/
theorem b64encode_chars :
    ∀ (B : List Nat), (∀ x ∈ B, x < 256) →
      ∀ c ∈ b64encode B, c = 61 ∨ ∃ v, v < 64 ∧ c = b64chr v
  | [], _, c, hc => by simp [b64encode] at hc
  | [a], h, c, hc => by
    have ha : a < 256 := h a (by simp)
    simp only [b64encode, List.mem_cons, List.not_mem_nil, or_false] at hc
    rcases hc with hc | hc | hc | hc
    · exact Or.inr ⟨a / 4, by omega, hc⟩
    · exact Or.inr ⟨a % 4 * 16, by omega, hc⟩
    · exact Or.inl hc
    · exact Or.inl hc
  | [a, b], h, c, hc => by
    have ha : a < 256 := h a (by simp)
    have hb : b < 256 := h b (by simp)
    simp only [b64encode, List.mem_cons, List.not_mem_nil, or_false] at hc
    rcases hc with hc | hc | hc | hc
    · exact Or.inr ⟨a / 4, by omega, hc⟩
    · exact Or.inr ⟨a % 4 * 16 + b / 16, by omega, hc⟩
    · exact Or.inr ⟨b % 16 * 4, by omega, hc⟩
    · exact Or.inl hc
  | a :: b :: c0 :: rest, h, c, hc => by
    have ha : a < 256 := h a (by simp)
    have hb : b < 256 := h b (by simp)
    have hc0 : c0 < 256 := h c0 (by simp)
    have hrest : ∀ x ∈ rest, x < 256 := fun x hx => h x (by simp [hx])
    simp only [b64encode, List.mem_cons] at hc
    rcases hc with hc | hc | hc | hc | hc
    · exact Or.inr ⟨a / 4, by omega, hc⟩
    · exact Or.inr ⟨a % 4 * 16 + b / 16, by omega, hc⟩
    · exact Or.inr ⟨b % 16 * 4 + c0 / 64, by omega, hc⟩
    · exact Or.inr ⟨c0 % 64, by omega, hc⟩
    · exact b64encode_chars rest hrest c hc

/-- On digits and the pad, the URL-safe decode translation undoes the
URL-safe encode translation. -/
theorem urlsafe_translate_digit :
    ∀ v, v < 64 → urlsafeTranslate (urlsafeEncTranslate (b64chr v)) = b64chr v := by
  decide

/-- Translating an encoder output to the URL-safe alphabet and back is the
identity. -/
theorem urlsafe_translate_encode (B : List Nat) (h : ∀ x ∈ B, x < 256) :
    ((b64encode B).map urlsafeEncTranslate).map urlsafeTranslate = b64encode B := by
  rw [List.map_map]
  have : ∀ c ∈ b64encode B, (urlsafeTranslate ∘ urlsafeEncTranslate) c = id c := by
    intro c hc
    rcases b64encode_chars B h c hc with hc61 | ⟨v, hv, hcv⟩
    · subst hc61; rfl
    · subst hcv; exact urlsafe_translate_digit v hv
  rw [List.map_congr_left this, List.map_id]

/-- Decoding the URL-safe encoding of a byte string gives it back. -/
theorem urlsafe_b64decode_b64encode (B : List Nat) (h : ∀ x ∈ B, x < 256) :
    urlsafe_b64decode (urlsafe_b64encode B) = some B := by
  rw [urlsafe_b64decode, urlsafe_b64encode, urlsafe_translate_encode B h,
    b64decode_b64encode B h]

/-- Characterization of the non-strict decoder on input without a pad
byte: bytes outside the alphabet are skipped, so decoding fails exactly
when the number of digit bytes does not complete the final quad. -/
theorem a2b_loop_no_pad :
    ∀ (l : List Nat) (quad left pads : Nat) (acc : List Nat), quad < 4 → 61 ∉ l →
      (a2b_loop l quad left pads acc = none ↔
        (quad + l.countP (fun c => (b64table c).isSome)) % 4 ≠ 0) := by
  intro l
  induction l with
  | nil =>
    intro quad left pads acc hq _
    match quad, hq with
    | 0, _ => simp [a2b_loop]
    | 1, _ => simp [a2b_loop]
    | 2, _ => simp [a2b_loop]
    | 3, _ => simp [a2b_loop]
  | cons c rest ih =>
    intro quad left pads acc hq hnp
    have hc61 : c ≠ 61 := fun h => hnp (by simp [h])
    have hrest : 61 ∉ rest := fun h => hnp (by simp [h])
    rw [List.countP_cons]
    cases hbc : b64table c with
    | none =>
      have hstep : a2b_loop (c :: rest) quad left pads acc =
          a2b_loop rest quad left pads acc := by
        simp [a2b_loop, hc61, hbc]
      rw [hstep]
      simpa using ih quad left pads acc hq hrest
    | some v =>
      simp only [Option.isSome_some, eq_self_iff_true, if_true]
      match quad, hq with
      | 0, _ =>
        rw [a2b_step0 hbc hc61]
        have := ih 1 v 0 acc (by omega) hrest
        rw [this]
        constructor <;> (intro hne; omega)
      | 1, _ =>
        rw [a2b_step1 hbc hc61]
        have := ih 2 (v % 16) 0 ((left * 4 + v / 16) :: acc) (by omega) hrest
        rw [this]
        constructor <;> (intro hne; omega)
      | 2, _ =>
        rw [a2b_step2 hbc hc61]
        have := ih 3 (v % 4) 0 ((left * 16 + v / 4) :: acc) (by omega) hrest
        rw [this]
        constructor <;> (intro hne; omega)
      | 3, _ =>
        rw [a2b_step3 hbc hc61]
        have := ih 0 0 0 ((left * 64 + v) :: acc) (by omega) hrest
        rw [this]
        constructor <;> (intro hne; omega)

/-! ## Lemmas about query parsing -/

/-- The replacement decoder never maps a non-empty byte string to the
empty string: every branch consumes at least one byte and emits at least
one character. -/
theorem utf8DecodeReplace_ne_nil (l : List Nat) (h : l ≠ []) :
    utf8DecodeReplace l ≠ [] := by
  match l with
  | [] => exact absurd rfl h
  | b :: rest =>
    rw [utf8DecodeReplace]
    exact List.cons_ne_nil _ _

/-- The percent-decoding core never returns the empty string unless both
the input and the byte buffer are empty. -/
theorem unquoteCore_ne_nil :
    ∀ (l : List Char) (buf : List Nat), l ≠ [] ∨ buf ≠ [] → unquoteCore l buf ≠ []
  | [], buf, h => by
    have hbuf : buf ≠ [] := h.resolve_left (fun h' => h' rfl)
    rw [unquoteCore]
    exact utf8DecodeReplace_ne_nil _ (by simpa using hbuf)
  | [c], buf, _ => by
    rw [unquoteCore]
    simp
  | [c, c1], buf, _ => by
    rw [unquoteCore]
    simp
  | c :: c1 :: c2 :: rest2, buf, _ => by
    rw [unquoteCore]
    split
    · split
      · exact unquoteCore_ne_nil rest2 _ (Or.inr (by simp))
      · simp
    · simp

/-- `unquote` maps non-empty strings to non-empty strings. -/
theorem unquote_ne_nil (s : List Char) (h : s ≠ []) : unquote s ≠ [] := by
  rw [unquote]
  split
  · exact unquoteCore_ne_nil s [] (Or.inl h)
  · exact h

/-- The `+`-to-space replacement preserves non-emptiness. -/
theorem plusToSpace_ne_nil (s : List Char) (h : s ≠ []) : plusToSpace s ≠ [] := by
  simpa [plusToSpace] using h

/-- Every pair produced by `parse_qsl` has a non-empty value: fields with
an empty raw value are skipped, and decoding keeps the value non-empty. -/
theorem qslField_value_ne_nil (nv : List Char) (p : List Char × List Char)
    (h : qslField nv = some p) : p.2 ≠ [] := by
  rw [qslField] at h
  split at h
  · exact absurd h (by simp)
  · split at h
    · exact absurd h (by simp)
    · rename_i n v heq
      split at h
      · exact absurd h (by simp)
      · rename_i hv
        cases h
        exact unquote_ne_nil _ (plusToSpace_ne_nil _ hv)

/-- Every pair of `parse_qsl` has a non-empty value. -/
theorem parse_qsl_value_ne_nil (qs : List Char) (p : List Char × List Char)
    (hp : p ∈ parse_qsl qs) : p.2 ≠ [] := by
  rw [parse_qsl] at hp
  rcases List.mem_filterMap.mp hp with ⟨nv, _, hnv⟩
  exact qslField_value_ne_nil nv p hnv

/-- Inserting into the query dictionary preserves non-emptiness of all
value lists. -/
theorem qsInsert_nonempty (d : List (List Char × List (List Char)))
    (hd : ∀ p ∈ d, p.2 ≠ []) (n v : List Char) :
    ∀ p ∈ qsInsert d n v, p.2 ≠ [] := by
  intro p hp
  rw [qsInsert] at hp
  split at hp
  · rcases List.mem_map.mp hp with ⟨q, hq, hqp⟩
    by_cases hqn : q.1 = n
    · rw [if_pos hqn] at hqp
      rw [← hqp]
      simp
    · rw [if_neg hqn] at hqp
      exact hqp ▸ hd q hq
  · rcases List.mem_append.mp hp with hp | hp
    · exact hd p hp
    · simp only [List.mem_singleton] at hp
      rw [hp]
      simp

/-- The fold building the query dictionary preserves non-emptiness of all
value lists. -/
theorem foldl_qsInsert_nonempty :
    ∀ (l : List (List Char × List Char)) (d : List (List Char × List (List Char))),
      (∀ p ∈ d, p.2 ≠ []) →
      ∀ p ∈ l.foldl (fun d p => qsInsert d p.1 p.2) d, p.2 ≠ []
  | [], d, hd => by simpa using hd
  | q :: rest, d, hd => by
    rw [List.foldl_cons]
    exact foldl_qsInsert_nonempty rest (qsInsert d q.1 q.2) (qsInsert_nonempty d hd q.1 q.2)

/-- Every value list in the dictionary produced by `parse_qs` is
non-empty. -/
theorem parse_qs_nonempty (qs : List Char) :
    ∀ p ∈ parse_qs qs, p.2 ≠ [] := by
  rw [parse_qs]
  exact foldl_qsInsert_nonempty (parse_qsl qs) [] (by simp)

/-- The output loop raises no `IndexError` when every value list is
non-empty. -/
theorem writeParams_no_error :
    ∀ (d : List (List Char × List (List Char))), (∀ p ∈ d, p.2 ≠ []) →
      (writeParams d).2 = none
  | [], _ => rfl
  | (n, vs) :: rest, hd => by
    have hvs : vs ≠ [] := hd (n, vs) (by simp)
    match vs, hvs with
    | v :: tail, _ =>
      rw [writeParams]
      exact writeParams_no_error rest (fun p hp => hd p (by simp [hp]))

/-! ## Claim theorems -/

/-- C1: for every input string, the b64dec handler decodes the string's
UTF-8 bytes with the standard alphabet when `--url-safe` is absent and
with the URL-safe alphabet when it is present, writing exactly the decoded
bytes to standard output; in particular `aGVsbG8=` yields the bytes of
`hello`. -/
theorem c1_b64dec_selected_alphabet :
    (∀ (v : String),
        b64dec_handle v false = b64decode (utf8Encode v) ∧
          b64dec_handle v true = urlsafe_b64decode (utf8Encode v)) ∧
      b64dec_handle "aGVsbG8=" false = some [104, 101, 108, 108, 111] ∧
      b64dec_handle "aGVsbG8=" true = some [104, 101, 108, 108, 111] :=
  ⟨fun _ => ⟨rfl, rfl⟩, by decide, by decide⟩

/-- C2: for every URL whose query component is `a=1&b=2&b=3`, the urlext
handler with `-qs` prints for each parameter name exactly one line with
the name and its first value, `a: 1` before `b: 2`, in declaration order,
and never a second value of the repeated key `b` (besides the parameter
lines only the constant `-qs:` header is written). -/
theorem c2_urlext_first_values_in_order (u : String)
    (h : urlparse_query u.data = Except.ok "a=1&b=2&b=3".data) :
    urlext_handle u true =
      ([qsHeaderLine, paramLine "a".data "1".data, paramLine "b".data "2".data],
        none) := by
  have hu : urlext_handle u true = urlext_qs_output (urlparse_query u.data) := rfl
  rw [hu, h]
  decide

/-- Witness for C2 at the concrete URL `http://x/p?a=1&b=2&b=3`. -/
theorem c2_urlext_first_values_in_order_witness :
    urlext_handle "http://x/p?a=1&b=2&b=3" true =
      ([qsHeaderLine, paramLine "a".data "1".data, paramLine "b".data "2".data],
        none) :=
  c2_urlext_first_values_in_order "http://x/p?a=1&b=2&b=3" rfl

/-- C3 counterexample: `aGVsbG8!=` contains `!` (byte 33), a character
invalid for the standard alphabet, so it is malformed Base64, yet the
handler decodes it successfully to the bytes of `hello` instead of
failing with a decoding error. -/
theorem c3_cex_invalid_char_decodes :
    b64table 33 = none ∧ (utf8Encode "aGVsbG8!=").contains 33 = true ∧
      b64dec_handle "aGVsbG8!=" false = some [104, 101, 108, 108, 111] := by
  decide

/-- C3 amended: characters invalid for the alphabet are silently
discarded rather than causing an error; an input without pad characters
fails with a decoding error — and then writes no bytes at all — exactly
when its number of alphabet characters leaves an incomplete final group
(incorrect padding), as for `aGVsbG8`. -/
theorem c3_bad_padding_fails (v : String)
    (hnp : 61 ∉ utf8Encode v) :
    b64dec_handle v false = none ↔
      (utf8Encode v).countP (fun c => (b64table c).isSome) % 4 ≠ 0 := by
  have h := a2b_loop_no_pad (utf8Encode v) 0 0 0 [] (by omega) hnp
  have hb : b64dec_handle v false = a2b_loop (utf8Encode v) 0 0 0 [] := rfl
  rw [hb, h]
  simp

/-- Witness for C3 at the concrete input `aGVsbG8` (seven alphabet
characters, so the decode fails). -/
theorem c3_bad_padding_fails_witness :
    61 ∉ utf8Encode "aGVsbG8" ∧
      (utf8Encode "aGVsbG8").countP (fun c => (b64table c).isSome) % 4 ≠ 0 ∧
      b64dec_handle "aGVsbG8" false = none :=
  ⟨by decide, by decide, (c3_bad_padding_fails "aGVsbG8" (by decide)).mpr (by decide)⟩

/-- C4 counterexample: `-_-_` is a valid URL-safe Base64 string (its
URL-safe decoding succeeds) containing `-` and `_`, yet decoding it with
the standard alphabet does not fail: the `-`/`_` bytes are discarded and
the empty byte string is returned. -/
theorem c4_cex_urlsafe_std_decode_succeeds :
    (utf8Encode "-_-_").contains 45 = true ∧
      b64dec_handle "-_-_" true = some [251, 255, 191] ∧
      b64dec_handle "-_-_" false = some [] := by
  decide

/-- C4 amended: on a string of URL-safe-alphabet characters (no padding)
containing `-` or `_`, the standard-alphabet decode discards those
characters and fails with a decode error exactly when the number of
standard-alphabet characters left does not fill the final group. -/
theorem c4_urlsafe_std_fail_iff (v : String)
    (hall : ∀ c ∈ utf8Encode v, (b64table (urlsafeTranslate c)).isSome)
    (_hdash : 45 ∈ utf8Encode v ∨ 95 ∈ utf8Encode v) :
    (b64dec_handle v false = none ↔
      (utf8Encode v).countP (fun c => (b64table c).isSome) % 4 ≠ 0) := by
  have hnp : 61 ∉ utf8Encode v := fun hmem =>
    absurd (hall 61 hmem) (by decide)
  have h := a2b_loop_no_pad (utf8Encode v) 0 0 0 [] (by omega) hnp
  have hb : b64dec_handle v false = a2b_loop (utf8Encode v) 0 0 0 [] := rfl
  rw [hb, h]
  simp

/-- Witness for C4 at the concrete input `te-_` (two standard digits
remain, so the standard decode fails). -/
theorem c4_urlsafe_std_fail_iff_witness :
    b64dec_handle "te-_" false = none :=
  (c4_urlsafe_std_fail_iff "te-_" (by decide) (by decide)).mpr (by decide)

/-- C5: for every string that is a valid Base64 encoding under the
selected alphabet (i.e. the encoding of some byte string with that
alphabet), the handler decodes it to exactly those bytes, and re-encoding
them with the same alphabet yields the input string back. -/
theorem c5_roundtrip (flag : Bool) (v : String) (B : List Nat)
    (hB : ∀ x ∈ B, x < 256)
    (hS : utf8Encode v = if flag then urlsafe_b64encode B else b64encode B) :
    b64dec_handle v flag = some B ∧
      (if flag then urlsafe_b64encode B else b64encode B) = utf8Encode v := by
  refine ⟨?_, hS.symm⟩
  cases flag with
  | false =>
    have hb : b64dec_handle v false = b64decode (utf8Encode v) := rfl
    rw [hb, show utf8Encode v = b64encode B from by simpa using hS]
    exact b64decode_b64encode B hB
  | true =>
    have hb : b64dec_handle v true = urlsafe_b64decode (utf8Encode v) := rfl
    rw [hb, show utf8Encode v = urlsafe_b64encode B from by simpa using hS]
    exact urlsafe_b64decode_b64encode B hB

/-- Witness for C5: `aGVsbG8=` is the standard encoding of the bytes of
`hello` and decodes back to them. -/
theorem c5_roundtrip_witness :
    (∀ x ∈ [104, 101, 108, 108, 111], x < 256) ∧
      utf8Encode "aGVsbG8=" =
        (if false then urlsafe_b64encode [104, 101, 108, 108, 111]
          else b64encode [104, 101, 108, 108, 111]) ∧
      b64dec_handle "aGVsbG8=" false = some [104, 101, 108, 108, 111] :=
  ⟨by decide, by decide,
    (c5_roundtrip false "aGVsbG8=" [104, 101, 108, 108, 111]
      (by decide) (by decide)).1⟩

/-- C6 counterexample: on a URL with no query string the handler with
`-qs` still writes the header line `-qs:`, so the output is not zero
lines. -/
theorem c6_cex_header_printed :
    urlparse_query "http://x/p".data = Except.ok [] ∧
      (urlext_handle "http://x/p" true).1 ≠ [] :=
  ⟨rfl, by decide⟩

/-- C6 amended: for every URL whose query string is empty (including URLs
with no query component), the handler with `-qs` writes exactly one line,
the constant header `-qs:`, and zero parameter lines. -/
theorem c6_empty_query_only_header (u : String)
    (h : urlparse_query u.data = Except.ok []) :
    urlext_handle u true = ([qsHeaderLine], none) := by
  have hu : urlext_handle u true = urlext_qs_output (urlparse_query u.data) := rfl
  rw [hu, h]
  decide

/-- Witness for C6 at the concrete URL `http://x/p`. -/
theorem c6_empty_query_only_header_witness :
    urlext_handle "http://x/p" true = ([qsHeaderLine], none) :=
  c6_empty_query_only_header "http://x/p" rfl

/-- C7: for every URL string, the handler without `-qs` writes nothing
and raises nothing (a silent no-op). -/
theorem c7_no_flag_no_output : ∀ (u : String), urlext_handle u false = ([], none) :=
  fun _ => rfl

/-- C8: behaviour on malformed URLs: a URL with an unmatched `[` makes
`urlparse` raise `ValueError('Invalid IPv6 URL')`, which propagates out of
the handler uncaught (after the header line was already written), and a
typical malformed URL such as `ht!tp://bad url` is parsed leniently with
no error reported at all — the handler never reports a parse error
itself. -/
theorem c8_malformed_url_behavior :
    urlext_handle "http://[::1" true =
        ([qsHeaderLine], some "Invalid IPv6 URL".data) ∧
      urlext_handle "ht!tp://bad url" true = ([qsHeaderLine], none) := by
  exact ⟨by decide, by decide⟩

/-- C9: for every URL on which query parsing succeeds, every value list
in the parsed query dictionary is non-empty, so the `value[0]` access in
the output loop never raises and the handler completes without
exception. -/
theorem c9_value_lists_nonempty (u : String) (q : List Char)
    (h : urlparse_query u.data = Except.ok q) :
    (∀ p ∈ parse_qs q, p.2 ≠ []) ∧ (urlext_handle u true).2 = none := by
  refine ⟨parse_qs_nonempty q, ?_⟩
  have hu : urlext_handle u true = urlext_qs_output (urlparse_query u.data) := rfl
  rw [hu, h]
  exact writeParams_no_error (parse_qs q) (parse_qs_nonempty q)

/-- Witness for C9 at the concrete URL `http://x/p?a=1&b=2&b=3`. -/
theorem c9_value_lists_nonempty_witness :
    (urlext_handle "http://x/p?a=1&b=2&b=3" true).2 = none :=
  (c9_value_lists_nonempty "http://x/p?a=1&b=2&b=3" "a=1&b=2&b=3".data rfl).2

/-- C10: every pair produced by query parsing has a non-empty value —
parameters with blank values are dropped from the parsed mapping — and on
the URL `http://x/p?a=&b=2` the handler prints no line for `a`, only the
header and the line for `b`. -/
theorem c10_blank_values_dropped :
    (∀ (q : List Char), ∀ p ∈ parse_qsl q, p.2 ≠ []) ∧
      urlext_handle "http://x/p?a=&b=2" true =
        ([qsHeaderLine, paramLine "b".data "2".data], none) :=
  ⟨fun q p hp => parse_qsl_value_ne_nil q p hp, by decide⟩

/-- Witness for C10: the pair kept from the query `a=&b=2` has a
non-empty value. -/
theorem c10_blank_values_dropped_witness :
    (("b".data, "2".data) : List Char × List Char).2 ≠ [] :=
  c10_blank_values_dropped.1 "a=&b=2".data ("b".data, "2".data) (by decide)
